import Mathlib

/-!
Shallow embedding of the DHCP option-block core (`src/src/net/dhcpopts.c`).

Memory is modelled as a function `Nat → Nat` from byte offsets to cell
contents; a `uint8_t` load is a lookup reduced `% 256`.  The raw scanner
`find_dhcp_option_raw` walks such a memory starting at an offset `pos`
(the embedding of the `struct dhcp_option *` cursor) with a signed
`remaining` counter, exactly as the C loop does, and additionally records
the list of byte offsets it dereferences, so that memory-safety claims
about the scan are statable.  The C `while` loop together with the
recursion into encapsulated blocks is embedded as a fuel-indexed
structural recursion; `find_dhcp_option_raw` supplies fuel
`remaining.toNat + 1`, which is proved sufficient (`findRawAux_fuel_eq`),
so the wrapper satisfies the loop's natural unfolding equations.
-/

namespace DhcpOpts

/-- Modelled from the spec: the reserved PAD tag is `0` (1 byte on the
wire, no payload, no length byte).  The constant lives in `gpxe/dhcp.h`,
which is not part of the source tree given. -/
def DHCP_PAD : Nat := 0

/-- Modelled from the spec: the reserved END tag is `255` (1 byte on the
wire, terminator).  The constant lives in `gpxe/dhcp.h`, which is not
part of the source tree given. -/
def DHCP_END : Nat := 255

/-- Modelled from the spec: in a composite search tag the encapsulator
occupies the high-order position — encoded as the bits above the low
byte.  The macro lives in `gpxe/dhcp.h`, which is not part of the source
tree given. -/
def DHCP_ENCAPSULATOR (tag : Nat) : Nat := tag >>> 8

/-- Modelled from the spec: in a composite search tag the encapsulated
sub-tag occupies the low-order position — encoded as the low byte.  The
macro lives in `gpxe/dhcp.h`, which is not part of the source tree
given. -/
def DHCP_ENCAPSULATED (tag : Nat) : Nat := tag &&& 0xff

/-- A `uint8_t` load from modelled memory: the cell at offset `i`,
truncated to a byte. -/
def readByte (mem : Nat → Nat) (i : Nat) : Nat := mem i % 256

/-- A DHCP option record view (`struct dhcp_option`): tag byte, length
byte, and the payload bytes `data.bytes[0..]` that follow.  The payload
is modelled as unbounded memory because the record is a view into a
buffer; only the first `len` cells are meaningful. -/
structure dhcp_option where
  tag : Nat
  len : Nat
  bytes : Nat → Nat

/-- `dhcp_num_option`: big-endian numeric decode of an option's payload,
`value = (value << 8) | *data` over the `len` payload bytes, accumulated
in a fixed-width unsigned register of `w` bits (the C `unsigned long`,
whose width is platform-defined, is modelled by the parameter `w`); a
`NULL` option (`none`) yields 0. -/
def dhcp_num_option (w : Nat) (opt : Option dhcp_option) : Nat :=
  match opt with
  | none => 0
  | some o =>
    (List.range o.len).foldl (fun value i => ((value <<< 8) ||| readByte o.bytes i) % 2 ^ w) 0

/-- `dhcp_option_len`: total on-wire length of one record — 1 for
`DHCP_END`/`DHCP_PAD`, else `len + 2` (tag byte + length byte +
payload).  `tag` and `l` are the record's tag and length fields. -/
def dhcp_option_len (tag l : Nat) : Nat :=
  if tag = DHCP_END ∨ tag = DHCP_PAD then 1 else l + 2

/-- The byte offsets `dhcp_option_len` dereferences for the record at
`pos`: the tag byte always, and the length byte at `pos + 1` exactly
when the tag is not a sentinel (for `DHCP_PAD`/`DHCP_END` the C function
returns 1 without touching `option->len`). -/
def lenReads (mem : Nat → Nat) (pos : Nat) : List Nat :=
  if readByte mem pos = DHCP_END ∨ readByte mem pos = DHCP_PAD then [pos] else [pos, pos + 1]

/-- Prepend a list of already-performed reads to a scan outcome. -/
def withReads (rs : List Nat) (p : Option Nat × List Nat) : Option Nat × List Nat :=
  (p.1, rs ++ p.2)

/-- Fuel-indexed embedding of the `find_dhcp_option_raw` loop.  One fuel
unit is spent per loop iteration or recursive descent; `remaining.toNat`
units are always enough (`findRawAux_fuel_eq`).  Returns the offset of
the matching record (`some pos`) or `none`, paired with the list of byte
offsets dereferenced. -/
def findRawAux : Nat → Nat → (Nat → Nat) → Nat → Int → Option Nat × List Nat
  | 0, _, _, _, _ => (none, [])
  | fuel + 1, tag, mem, pos, remaining =>
    if remaining = 0 then (none, [])
    else if readByte mem pos = DHCP_END then (none, [pos])
    else if remaining - (dhcp_option_len (readByte mem pos) (readByte mem (pos + 1)) : Int) < 0 then
      (none, lenReads mem pos)
    else if readByte mem pos = tag then (some pos, lenReads mem pos)
    else if DHCP_ENCAPSULATOR tag ≠ 0 ∧ readByte mem pos = DHCP_ENCAPSULATOR tag then
      withReads (lenReads mem pos)
        (findRawAux fuel (DHCP_ENCAPSULATED tag) mem (pos + 2) (readByte mem (pos + 1) : Int))
    else
      withReads (lenReads mem pos)
        (findRawAux fuel tag mem
          (pos + dhcp_option_len (readByte mem pos) (readByte mem (pos + 1)))
          (remaining - (dhcp_option_len (readByte mem pos) (readByte mem (pos + 1)) : Int)))

/-- `find_dhcp_option_raw`: scan the option records of the buffer lying
at offsets `[pos, pos + remaining)` of `mem` for `tag` (plain or
composite).  Result: offset of the matching record or `none`, paired
with the trace of byte offsets dereferenced.  The top-level C call is
`pos = 0`, `remaining = len`. -/
def find_dhcp_option_raw (tag : Nat) (mem : Nat → Nat) (pos : Nat) (remaining : Int) :
    Option Nat × List Nat :=
  findRawAux (remaining.toNat + 1) tag mem pos remaining

/-- An option block (`struct dhcp_option_block`): an owned buffer and
its capacity. -/
structure dhcp_option_block where
  data : Nat → Nat
  len : Nat

/-- `find_dhcp_option`: walk the registry (a list of block identifiers,
head = most recently registered; `env` maps identifiers to blocks) and
return the first block's match, as `(block identifier, offset)`. -/
def find_dhcp_option (tag : Nat) (env : Nat → dhcp_option_block) :
    List Nat → Option (Nat × Nat)
  | [] => none
  | i :: rest =>
    match (find_dhcp_option_raw tag (env i).data 0 ((env i).len : Int)).1 with
    | some pos => some (i, pos)
    | none => find_dhcp_option tag env rest

/-- `register_dhcp_options`: `list_add` inserts at the head of
`option_blocks`.  Modelled from the spec: the list discipline
(`gpxe/list.h`) is not part of the source tree given; per the spec the
registry order is most-recently-registered-first, i.e. registration
prepends. -/
def register_dhcp_options (i : Nat) (r : List Nat) : List Nat := i :: r

/-- `unregister_dhcp_options`: `list_del` unlinks the block's node.
Modelled from the spec: `gpxe/list.h` is not part of the source tree
given; unlinking a block that occurs at most once in the registry is
removal of its occurrence. -/
def unregister_dhcp_options (i : Nat) (r : List Nat) : List Nat := r.erase i

/-- `alloc_dhcp_options`: allocate a block of capacity `len`.  `malloc`
is modelled by the flag `malloc_ok` (allocation success) and the
function `junk` (the uninitialized contents it returns); on success the
block's `len` is set and, when `len ≠ 0`, byte 0 of the buffer is set to
`DHCP_END`; on failure the C function returns `NULL` (`none`). -/
def alloc_dhcp_options (len : Nat) (junk : Nat → Nat) (malloc_ok : Bool) :
    Option dhcp_option_block :=
  if malloc_ok then
    some { data := fun i => if len ≠ 0 ∧ i = 0 then DHCP_END else junk i, len := len }
  else none

/-- `dhcp_option_len` is at least 1: every record occupies at least its
tag byte. -/
lemma dhcp_option_len_pos (tag l : Nat) : 1 ≤ dhcp_option_len tag l := by
  unfold dhcp_option_len
  split <;> omega

/-- A record that is neither `DHCP_END` nor `DHCP_PAD` has on-wire
length `l + 2`. -/
lemma dhcp_option_len_normal (tag l : Nat) (h1 : tag ≠ DHCP_END) (h2 : tag ≠ DHCP_PAD) :
    dhcp_option_len tag l = l + 2 := by
  unfold dhcp_option_len
  rw [if_neg]
  push_neg
  exact ⟨h1, h2⟩

/-- The encapsulator component of a composite tag is never the tag at
`pos` itself when the encapsulator is nonzero (the encapsulator is the
high byte of `tag`, and the byte read at `pos` is below 256). -/
lemma readByte_ne_tag_of_encap (tag : Nat) (mem : Nat → Nat) (pos : Nat)
    (h1 : DHCP_ENCAPSULATOR tag ≠ 0) (h2 : readByte mem pos = DHCP_ENCAPSULATOR tag) :
    readByte mem pos ≠ tag := by
  intro h
  have hb : readByte mem pos < 256 := Nat.mod_lt _ (by omega)
  have hdiv : DHCP_ENCAPSULATOR tag = tag / 256 := by
    unfold DHCP_ENCAPSULATOR
    rw [Nat.shiftRight_eq_div_pow]
  rw [hdiv] at h1 h2
  omega

/-- The fuel parameter of `findRawAux` is irrelevant once it exceeds
`remaining.toNat`: the loop consumes at least one remaining byte per
iteration and recursion descends to a strictly smaller remaining
count. -/
lemma findRawAux_fuel_eq (f1 : Nat) :
    ∀ (f2 tag : Nat) (mem : Nat → Nat) (pos : Nat) (remaining : Int),
      remaining.toNat < f1 → remaining.toNat < f2 →
      findRawAux f1 tag mem pos remaining = findRawAux f2 tag mem pos remaining := by
  induction f1 with
  | zero =>
    intro f2 tag mem pos remaining h1 h2
    omega
  | succ f1 ih =>
    intro f2 tag mem pos remaining h1 h2
    cases f2 with
    | zero => omega
    | succ f2 =>
      simp only [findRawAux]
      split_ifs with h0 hEnd hOver hMatch hEncap
      · rfl
      · rfl
      · rfl
      · rfl
      · have hPad : readByte mem pos ≠ DHCP_PAD := by
          rw [hEncap.2]
          simpa [DHCP_PAD] using hEncap.1
        rw [dhcp_option_len_normal _ _ hEnd hPad] at hOver
        unfold withReads
        rw [ih f2 (DHCP_ENCAPSULATED tag) mem (pos + 2) (readByte mem (pos + 1) : Int)
          (by omega) (by omega)]
      · have hpos := dhcp_option_len_pos (readByte mem pos) (readByte mem (pos + 1))
        unfold withReads
        rw [ih f2 tag mem
          (pos + dhcp_option_len (readByte mem pos) (readByte mem (pos + 1)))
          (remaining - (dhcp_option_len (readByte mem pos) (readByte mem (pos + 1)) : Int))
          (by omega) (by omega)]

/-- Unfolding: a scan with `remaining = 0` stops at once (not found,
nothing read). -/
lemma findRaw_step_zero (tag : Nat) (mem : Nat → Nat) (pos : Nat) :
    find_dhcp_option_raw tag mem pos 0 = (none, []) := by
  unfold find_dhcp_option_raw
  simp [findRawAux]

/-- Unfolding: an explicit `DHCP_END` tag stops the scan (not found),
reading only the tag byte. -/
lemma findRaw_step_end (tag : Nat) (mem : Nat → Nat) (pos : Nat) (remaining : Int)
    (h0 : remaining ≠ 0) (h1 : readByte mem pos = DHCP_END) :
    find_dhcp_option_raw tag mem pos remaining = (none, [pos]) := by
  unfold find_dhcp_option_raw
  simp only [findRawAux]
  rw [if_neg h0, if_pos h1]

/-- Unfolding: a record whose on-wire length overruns `remaining` stops
the scan (not found). -/
lemma findRaw_step_overrun (tag : Nat) (mem : Nat → Nat) (pos : Nat) (remaining : Int)
    (h0 : remaining ≠ 0) (h1 : readByte mem pos ≠ DHCP_END)
    (h2 : remaining - (dhcp_option_len (readByte mem pos) (readByte mem (pos + 1)) : Int) < 0) :
    find_dhcp_option_raw tag mem pos remaining = (none, lenReads mem pos) := by
  unfold find_dhcp_option_raw
  simp only [findRawAux]
  rw [if_neg h0, if_neg h1, if_pos h2]

/-- Unfolding: a record whose tag equals the target and whose length
fits in `remaining` is returned. -/
lemma findRaw_step_found (tag : Nat) (mem : Nat → Nat) (pos : Nat) (remaining : Int)
    (h0 : remaining ≠ 0) (h1 : readByte mem pos ≠ DHCP_END)
    (h2 : 0 ≤ remaining - (dhcp_option_len (readByte mem pos) (readByte mem (pos + 1)) : Int))
    (h3 : readByte mem pos = tag) :
    find_dhcp_option_raw tag mem pos remaining = (some pos, lenReads mem pos) := by
  unfold find_dhcp_option_raw
  simp only [findRawAux]
  rw [if_neg h0, if_neg h1, if_neg (not_lt.mpr h2), if_pos h3]

/-- Unfolding: a record whose tag equals the encapsulator component of a
composite target hands the scan over to the record's payload. -/
lemma findRaw_step_encap (tag : Nat) (mem : Nat → Nat) (pos : Nat) (remaining : Int)
    (h0 : remaining ≠ 0) (h1 : readByte mem pos ≠ DHCP_END)
    (h2 : 0 ≤ remaining - (dhcp_option_len (readByte mem pos) (readByte mem (pos + 1)) : Int))
    (h3 : DHCP_ENCAPSULATOR tag ≠ 0) (h4 : readByte mem pos = DHCP_ENCAPSULATOR tag) :
    find_dhcp_option_raw tag mem pos remaining =
      withReads (lenReads mem pos)
        (find_dhcp_option_raw (DHCP_ENCAPSULATED tag) mem (pos + 2)
          (readByte mem (pos + 1) : Int)) := by
  have hMatch : readByte mem pos ≠ tag := readByte_ne_tag_of_encap tag mem pos h3 h4
  have hPad : readByte mem pos ≠ DHCP_PAD := by
    rw [h4]
    simpa [DHCP_PAD] using h3
  have e : find_dhcp_option_raw tag mem pos remaining =
      withReads (lenReads mem pos)
        (findRawAux remaining.toNat (DHCP_ENCAPSULATED tag) mem (pos + 2)
          (readByte mem (pos + 1) : Int)) := by
    unfold find_dhcp_option_raw
    simp only [findRawAux]
    rw [if_neg h0, if_neg h1, if_neg (not_lt.mpr h2), if_neg hMatch, if_pos ⟨h3, h4⟩]
  rw [e]
  unfold find_dhcp_option_raw withReads
  rw [dhcp_option_len_normal _ _ h1 hPad] at h2
  rw [findRawAux_fuel_eq remaining.toNat ((readByte mem (pos + 1) : Int).toNat + 1)
    (DHCP_ENCAPSULATED tag) mem (pos + 2) (readByte mem (pos + 1) : Int)
    (by omega) (by omega)]

/-- Unfolding: a record that neither matches, terminates, nor overruns
is skipped, the scan resuming after its on-wire length. -/
lemma findRaw_step_skip (tag : Nat) (mem : Nat → Nat) (pos : Nat) (remaining : Int)
    (h0 : remaining ≠ 0) (h1 : readByte mem pos ≠ DHCP_END)
    (h2 : 0 ≤ remaining - (dhcp_option_len (readByte mem pos) (readByte mem (pos + 1)) : Int))
    (h3 : readByte mem pos ≠ tag)
    (h4 : ¬(DHCP_ENCAPSULATOR tag ≠ 0 ∧ readByte mem pos = DHCP_ENCAPSULATOR tag)) :
    find_dhcp_option_raw tag mem pos remaining =
      withReads (lenReads mem pos)
        (find_dhcp_option_raw tag mem
          (pos + dhcp_option_len (readByte mem pos) (readByte mem (pos + 1)))
          (remaining - (dhcp_option_len (readByte mem pos) (readByte mem (pos + 1)) : Int))) := by
  have e : find_dhcp_option_raw tag mem pos remaining =
      withReads (lenReads mem pos)
        (findRawAux remaining.toNat tag mem
          (pos + dhcp_option_len (readByte mem pos) (readByte mem (pos + 1)))
          (remaining - (dhcp_option_len (readByte mem pos) (readByte mem (pos + 1)) : Int))) := by
    unfold find_dhcp_option_raw
    simp only [findRawAux]
    rw [if_neg h0, if_neg h1, if_neg (not_lt.mpr h2), if_neg h3, if_neg h4]
  rw [e]
  unfold find_dhcp_option_raw withReads
  have hpos := dhcp_option_len_pos (readByte mem pos) (readByte mem (pos + 1))
  rw [findRawAux_fuel_eq remaining.toNat
    ((remaining - (dhcp_option_len (readByte mem pos) (readByte mem (pos + 1)) : Int)).toNat + 1)
    tag mem (pos + dhcp_option_len (readByte mem pos) (readByte mem (pos + 1)))
    (remaining - (dhcp_option_len (readByte mem pos) (readByte mem (pos + 1)) : Int))
    (by omega) (by omega)]

/-- `lenReads` performs at most two dereferences per record. -/
lemma lenReads_length_le (mem : Nat → Nat) (pos : Nat) : (lenReads mem pos).length ≤ 2 := by
  unfold lenReads
  split <;> simp

/-- Work bound for the fueled scanner: whatever the fuel, a scan over a
nonnegative `remaining` dereferences at most `2 * remaining` bytes —
each iteration consumes at least one remaining byte and performs at most
two reads, and descent into an encapsulated payload is into a strictly
smaller remaining count. -/
lemma findRawAux_reads_le (fuel : Nat) :
    ∀ (tag : Nat) (mem : Nat → Nat) (pos : Nat) (remaining : Int), 0 ≤ remaining →
      ((findRawAux fuel tag mem pos remaining).2).length ≤ 2 * remaining.toNat := by
  induction fuel with
  | zero =>
    intro tag mem pos remaining _
    simp [findRawAux]
  | succ fuel ih =>
    intro tag mem pos remaining hr
    simp only [findRawAux]
    split_ifs with h0 hEnd hOver hMatch hEncap
    · simp
    · simp
      omega
    · have := lenReads_length_le mem pos
      simp
      omega
    · have := lenReads_length_le mem pos
      simp
      omega
    · have hPad : readByte mem pos ≠ DHCP_PAD := by
        rw [hEncap.2]
        simpa [DHCP_PAD] using hEncap.1
      rw [dhcp_option_len_normal _ _ hEnd hPad] at hOver
      have h1 := lenReads_length_le mem pos
      have h2 := ih (DHCP_ENCAPSULATED tag) mem (pos + 2) (readByte mem (pos + 1) : Int)
        (by omega)
      unfold withReads
      simp only [List.length_append]
      omega
    · have hpos := dhcp_option_len_pos (readByte mem pos) (readByte mem (pos + 1))
      have h1 := lenReads_length_le mem pos
      have h2 := ih tag mem
        (pos + dhcp_option_len (readByte mem pos) (readByte mem (pos + 1)))
        (remaining - (dhcp_option_len (readByte mem pos) (readByte mem (pos + 1)) : Int))
        (by omega)
      unfold withReads
      simp only [List.length_append]
      omega

/-- Claim C1: refuted — the scan does read a length byte at the buffer
boundary.  On the one-byte buffer `[53]` (a single non-sentinel tag with
its length byte missing), searching for tag 67 dereferences offset 1,
which lies at `buffer + length` and hence outside `[buffer, buffer +
length)`: `dhcp_option_len` fetches `option->len` before the `remaining
< 0` check can stop the scan. -/
theorem find_raw_reads_length_byte_out_of_bounds :
    1 ∈ (find_dhcp_option_raw 67 (fun i => [53].getD i 0) 0 1).2 ∧ ¬ (1 : Nat) < 1 := by
  decide

/-- Claim C2: a record whose declared on-wire length exceeds the
remaining byte count makes `find_dhcp_option_raw` return not-found
(`none`) at once — the same value a caller sees when the tag is simply
absent. -/
theorem find_raw_overrun_not_found (tag : Nat) (mem : Nat → Nat) (pos : Nat) (remaining : Int)
    (h0 : remaining ≠ 0) (h1 : readByte mem pos ≠ DHCP_END)
    (h2 : remaining - (dhcp_option_len (readByte mem pos) (readByte mem (pos + 1)) : Int) < 0) :
    (find_dhcp_option_raw tag mem pos remaining).1 = none := by
  rw [findRaw_step_overrun tag mem pos remaining h0 h1 h2]

/-- Witness for C2: buffer `[53, 200]` of length 2 declares a 200-byte
payload; searching for tag 67 yields not-found. -/
theorem find_raw_overrun_not_found_witness :
    ((2 : Int) ≠ 0 ∧
      readByte (fun i => [53, 200].getD i 0) 0 ≠ DHCP_END ∧
      (2 : Int) - (dhcp_option_len (readByte (fun i => [53, 200].getD i 0) 0)
        (readByte (fun i => [53, 200].getD i 0) (0 + 1)) : Int) < 0) ∧
    (find_dhcp_option_raw 67 (fun i => [53, 200].getD i 0) 0 2).1 = none :=
  ⟨⟨by decide, by decide, by decide⟩,
    find_raw_overrun_not_found 67 (fun i => [53, 200].getD i 0) 0 2
      (by decide) (by decide) (by decide)⟩

/-- Claim C3: an explicit `DHCP_END` tag at the current position makes
`find_dhcp_option_raw` return not-found, whatever bytes (including an
occurrence of the target tag) lie beyond it. -/
theorem find_raw_end_stops (tag : Nat) (mem : Nat → Nat) (pos : Nat) (remaining : Int)
    (h0 : remaining ≠ 0) (h1 : readByte mem pos = DHCP_END) :
    (find_dhcp_option_raw tag mem pos remaining).1 = none := by
  rw [findRaw_step_end tag mem pos remaining h0 h1]

/-- Witness for C3: buffer `[255, 53, 1, 2]` starts with `END`; the scan
for tag 53 returns not-found even though a well-formed record with tag
53 lies at offset 1, inside bounds (third conjunct). -/
theorem find_raw_end_stops_witness :
    ((4 : Int) ≠ 0 ∧ readByte (fun i => [255, 53, 1, 2].getD i 0) 0 = DHCP_END) ∧
    (find_dhcp_option_raw 53 (fun i => [255, 53, 1, 2].getD i 0) 0 4).1 = none ∧
    (find_dhcp_option_raw 53 (fun i => [255, 53, 1, 2].getD i 0) 1 3).1 = some 1 :=
  ⟨⟨by decide, by decide⟩,
    find_raw_end_stops 53 (fun i => [255, 53, 1, 2].getD i 0) 0 4 (by decide) (by decide),
    by decide⟩

/-- Claim C4: when the scan reaches (step 3 passed: the record fits in
`remaining`) a record whose tag equals the encapsulator component of a
composite target, the outer result is exactly the result of recursively
searching that record's `len`-byte payload for the sub-tag, and the
outer scan performs no further reads of its own past that record. -/
theorem find_raw_encap_delegates (tag : Nat) (mem : Nat → Nat) (pos : Nat) (remaining : Int)
    (h0 : remaining ≠ 0) (h1 : readByte mem pos ≠ DHCP_END)
    (h2 : 0 ≤ remaining - (dhcp_option_len (readByte mem pos) (readByte mem (pos + 1)) : Int))
    (h3 : DHCP_ENCAPSULATOR tag ≠ 0) (h4 : readByte mem pos = DHCP_ENCAPSULATOR tag) :
    (find_dhcp_option_raw tag mem pos remaining).1 =
      (find_dhcp_option_raw (DHCP_ENCAPSULATED tag) mem (pos + 2)
        (readByte mem (pos + 1) : Int)).1 ∧
    (find_dhcp_option_raw tag mem pos remaining).2 =
      lenReads mem pos ++
        (find_dhcp_option_raw (DHCP_ENCAPSULATED tag) mem (pos + 2)
          (readByte mem (pos + 1) : Int)).2 := by
  rw [findRaw_step_encap tag mem pos remaining h0 h1 h2 h3 h4]
  unfold withReads
  exact ⟨rfl, rfl⟩

/-- Witness for C4: buffer `[175, 4, 22, 2, 9, 9, 255]`, composite tag
`(175 << 8) | 22`; the outer scan delegates to the payload `[22, 2, 9,
9]` and both return the nested record at offset 2 (last conjunct). -/
theorem find_raw_encap_delegates_witness :
    ((7 : Int) ≠ 0 ∧
      readByte (fun i => [175, 4, 22, 2, 9, 9, 255].getD i 0) 0 ≠ DHCP_END ∧
      0 ≤ (7 : Int) - (dhcp_option_len (readByte (fun i => [175, 4, 22, 2, 9, 9, 255].getD i 0) 0)
        (readByte (fun i => [175, 4, 22, 2, 9, 9, 255].getD i 0) (0 + 1)) : Int) ∧
      DHCP_ENCAPSULATOR (175 * 256 + 22) ≠ 0 ∧
      readByte (fun i => [175, 4, 22, 2, 9, 9, 255].getD i 0) 0 =
        DHCP_ENCAPSULATOR (175 * 256 + 22)) ∧
    ((find_dhcp_option_raw (175 * 256 + 22) (fun i => [175, 4, 22, 2, 9, 9, 255].getD i 0)
        0 7).1 =
      (find_dhcp_option_raw (DHCP_ENCAPSULATED (175 * 256 + 22))
        (fun i => [175, 4, 22, 2, 9, 9, 255].getD i 0) (0 + 2)
        (readByte (fun i => [175, 4, 22, 2, 9, 9, 255].getD i 0) (0 + 1) : Int)).1 ∧
      (find_dhcp_option_raw (175 * 256 + 22) (fun i => [175, 4, 22, 2, 9, 9, 255].getD i 0)
        0 7).2 =
      lenReads (fun i => [175, 4, 22, 2, 9, 9, 255].getD i 0) 0 ++
        (find_dhcp_option_raw (DHCP_ENCAPSULATED (175 * 256 + 22))
          (fun i => [175, 4, 22, 2, 9, 9, 255].getD i 0) (0 + 2)
          (readByte (fun i => [175, 4, 22, 2, 9, 9, 255].getD i 0) (0 + 1) : Int)).2) ∧
    (find_dhcp_option_raw (175 * 256 + 22) (fun i => [175, 4, 22, 2, 9, 9, 255].getD i 0)
      0 7).1 = some 2 :=
  ⟨⟨by decide, by decide, by decide, by decide, by decide⟩,
    find_raw_encap_delegates (175 * 256 + 22) (fun i => [175, 4, 22, 2, 9, 9, 255].getD i 0)
      0 7 (by decide) (by decide) (by decide) (by decide) (by decide),
    by decide⟩

/-- Claim C5: a record whose declared length makes `remaining` become
exactly 0 is still examined — if its tag equals the target it is
returned, not treated as malformed. -/
theorem find_raw_exact_fit_found (tag : Nat) (mem : Nat → Nat) (pos : Nat) (remaining : Int)
    (h0 : remaining ≠ 0) (h1 : readByte mem pos ≠ DHCP_END)
    (h2 : remaining - (dhcp_option_len (readByte mem pos) (readByte mem (pos + 1)) : Int) = 0)
    (h3 : readByte mem pos = tag) :
    (find_dhcp_option_raw tag mem pos remaining).1 = some pos := by
  rw [findRaw_step_found tag mem pos remaining h0 h1 (by omega) h3]

/-- Witness for C5: buffer `[53, 1, 2]` of length 3 — the single record
ends exactly at the buffer boundary and is found. -/
theorem find_raw_exact_fit_found_witness :
    ((3 : Int) ≠ 0 ∧
      readByte (fun i => [53, 1, 2].getD i 0) 0 ≠ DHCP_END ∧
      (3 : Int) - (dhcp_option_len (readByte (fun i => [53, 1, 2].getD i 0) 0)
        (readByte (fun i => [53, 1, 2].getD i 0) (0 + 1)) : Int) = 0 ∧
      readByte (fun i => [53, 1, 2].getD i 0) 0 = 53) ∧
    (find_dhcp_option_raw 53 (fun i => [53, 1, 2].getD i 0) 0 3).1 = some 0 :=
  ⟨⟨by decide, by decide, by decide, by decide⟩,
    find_raw_exact_fit_found 53 (fun i => [53, 1, 2].getD i 0) 0 3
      (by decide) (by decide) (by decide) (by decide)⟩

/-- Claim C9: every scan terminates with work bounded by the buffer
length — `find_dhcp_option_raw` (a total function of the embedding)
dereferences at most `2 * remaining` bytes: each iteration consumes at
least one remaining byte, and recursion into an encapsulated payload is
on a strictly shorter buffer. -/
theorem find_raw_reads_bounded (tag : Nat) (mem : Nat → Nat) (pos : Nat) (remaining : Int)
    (h : 0 ≤ remaining) :
    ((find_dhcp_option_raw tag mem pos remaining).2).length ≤ 2 * remaining.toNat :=
  findRawAux_reads_le (remaining.toNat + 1) tag mem pos remaining h

/-- Witness for C9: the spec's sample buffer `[53, 1, 2, 255]` is
scanned with at most 8 dereferences. -/
theorem find_raw_reads_bounded_witness :
    (0 : Int) ≤ 4 ∧
    ((find_dhcp_option_raw 53 (fun i => [53, 1, 2, 255].getD i 0) 0 4).2).length ≤
      2 * (4 : Int).toNat :=
  ⟨by decide,
    find_raw_reads_bounded 53 (fun i => [53, 1, 2, 255].getD i 0) 0 4 (by decide)⟩

/-- A byte load is below 256. -/
lemma readByte_lt (mem : Nat → Nat) (i : Nat) : readByte mem i < 256 := by
  unfold readByte
  exact Nat.mod_lt _ (by omega)

/-- Oring a byte below 256 into a value shifted left by 8 is plain
addition: the low 8 bits of the shifted value are clear. -/
lemma shiftLeft_or_byte (x r : Nat) (h : r < 256) : (x <<< 8) ||| r = x * 256 + r := by
  apply Nat.eq_of_testBit_eq
  intro j
  have hr : r < 2 ^ 8 := h
  have e : x * 256 + r = 2 ^ 8 * x + r := by ring
  rw [Nat.testBit_lor, Nat.testBit_shiftLeft, e, Nat.testBit_mul_pow_two_add x hr j]
  by_cases hj : j < 8
  · have hn : ¬ (j ≥ 8) := by omega
    simp [hj, hn]
  · have hge : j ≥ 8 := by omega
    have hrj : r.testBit j = false :=
      Nat.testBit_lt_two_pow (lt_of_lt_of_le hr (Nat.pow_le_pow_right (by omega) hge))
    simp [hj, hge, hrj]

/-- One accumulator step of `dhcp_num_option`, performed on a value
already reduced modulo `2 ^ w`, agrees modulo `2 ^ w` with the
unbounded step. -/
lemma num_fold_step (w v r : Nat) (h : r < 256) :
    (((v % 2 ^ w) <<< 8) ||| r) % 2 ^ w = (v * 256 + r) % 2 ^ w := by
  rw [shiftLeft_or_byte _ _ h]
  exact ((Nat.mod_modEq v (2 ^ w)).mul_right 256).add_right r

/-- The big-endian numeric value of `len` payload bytes as the spec
describes it, folded without any width bound. -/
def bigEndianValue (len : Nat) (bytes : Nat → Nat) : Nat :=
  (List.range len).foldl (fun value i => value * 256 + readByte bytes i) 0

/-- The width-`w` fold of `dhcp_num_option` is the unbounded big-endian
fold reduced modulo `2 ^ w`, for any index list and starting value. -/
lemma num_fold_eq (w : Nat) (bytes : Nat → Nat) (l : List Nat) : ∀ v : Nat,
    l.foldl (fun value i => ((value <<< 8) ||| readByte bytes i) % 2 ^ w) (v % 2 ^ w) =
      (l.foldl (fun value i => value * 256 + readByte bytes i) v) % 2 ^ w := by
  induction l with
  | nil =>
    intro v
    simp
  | cons a l ih =>
    intro v
    simp only [List.foldl_cons]
    rw [num_fold_step w v (readByte bytes a) (readByte_lt bytes a)]
    exact ih (v * 256 + readByte bytes a)

/-- Claim C6: `dhcp_num_option` of `NULL` is 0, and of a supplied record
is the big-endian fold `value = (value << 8) | byte` of its `len`
payload bytes in a `w`-bit accumulator — equal to the unbounded
big-endian value reduced `% 2 ^ w` (so wider payloads wrap by discarding
high bits); a zero-length payload gives 0 and payload `[0x01, 0x02]`
gives `0x0102`. -/
theorem dhcp_num_option_spec (w : Nat) (o2 : dhcp_option) (hw : 16 ≤ w)
    (hlen : o2.len = 2) (hb0 : readByte o2.bytes 0 = 1) (hb1 : readByte o2.bytes 1 = 2) :
    dhcp_num_option w none = 0 ∧
    (∀ o : dhcp_option, dhcp_num_option w (some o) = bigEndianValue o.len o.bytes % 2 ^ w) ∧
    (∀ o : dhcp_option, o.len = 0 → dhcp_num_option w (some o) = 0) ∧
    dhcp_num_option w (some o2) = 0x0102 := by
  have key : ∀ o : dhcp_option,
      dhcp_num_option w (some o) = bigEndianValue o.len o.bytes % 2 ^ w := by
    intro o
    unfold dhcp_num_option bigEndianValue
    have h := num_fold_eq w o.bytes (List.range o.len) 0
    simpa using h
  refine ⟨rfl, key, ?_, ?_⟩
  · intro o h
    rw [key o]
    unfold bigEndianValue
    rw [h]
    simp
  · rw [key o2]
    unfold bigEndianValue
    rw [hlen]
    have hr : List.range 2 = [0, 1] := by decide
    rw [hr]
    simp only [List.foldl_cons, List.foldl_nil]
    rw [hb0, hb1]
    have h258 : (0 * 256 + 1) * 256 + 2 = 258 := by norm_num
    rw [h258]
    have hlt : (258 : Nat) < 2 ^ w :=
      lt_of_lt_of_le (by norm_num) (Nat.pow_le_pow_right (by norm_num) hw)
    exact Nat.mod_eq_of_lt hlt

/-- Witness for C6: a 32-bit accumulator and the record with payload
`[1, 2]`. -/
theorem dhcp_num_option_spec_witness :
    (16 ≤ 32 ∧
      (⟨53, 2, fun i => [1, 2].getD i 0⟩ : dhcp_option).len = 2 ∧
      readByte (⟨53, 2, fun i => [1, 2].getD i 0⟩ : dhcp_option).bytes 0 = 1 ∧
      readByte (⟨53, 2, fun i => [1, 2].getD i 0⟩ : dhcp_option).bytes 1 = 2) ∧
    (dhcp_num_option 32 none = 0 ∧
      (∀ o : dhcp_option, dhcp_num_option 32 (some o) = bigEndianValue o.len o.bytes % 2 ^ 32) ∧
      (∀ o : dhcp_option, o.len = 0 → dhcp_num_option 32 (some o) = 0) ∧
      dhcp_num_option 32 (some ⟨53, 2, fun i => [1, 2].getD i 0⟩) = 0x0102) :=
  ⟨⟨by decide, by decide, by decide, by decide⟩,
    dhcp_num_option_spec 32 ⟨53, 2, fun i => [1, 2].getD i 0⟩
      (by decide) (by decide) (by decide) (by decide)⟩

/-- Claim C7: the registry is searched most-recently-registered first —
after registering `i1` then `i2`, a tag found in both blocks is returned
from `i2`; and a tag found in no registered block yields not-found. -/
theorem find_option_priority (tag : Nat) (env : Nat → dhcp_option_block) (r0 : List Nat)
    (i1 i2 p1 p2 : Nat)
    (h1 : (find_dhcp_option_raw tag (env i1).data 0 ((env i1).len : Int)).1 = some p1)
    (h2 : (find_dhcp_option_raw tag (env i2).data 0 ((env i2).len : Int)).1 = some p2) :
    find_dhcp_option tag env
      (register_dhcp_options i2 (register_dhcp_options i1 r0)) = some (i2, p2) ∧
    (∀ r : List Nat,
      (∀ i ∈ r, (find_dhcp_option_raw tag (env i).data 0 ((env i).len : Int)).1 = none) →
      find_dhcp_option tag env r = none) := by
  constructor
  · simp [register_dhcp_options, find_dhcp_option, h2]
  · intro r
    induction r with
    | nil =>
      intro _
      rfl
    | cons i rest ih =>
      intro hall
      have hhd := hall i (by simp)
      simp only [find_dhcp_option, hhd]
      exact ih (fun j hj => hall j (by simp [hj]))

/-- Witness for C7: two blocks both holding tag 53 (values 7 and 9); the
search of the registry `[2, 1]` built by registering 1 then 2 returns
the record of block 2. -/
theorem find_option_priority_witness :
    ((find_dhcp_option_raw 53
        ((fun i => if i = 1 then (⟨fun k => [53, 1, 7, 255].getD k 0, 4⟩ : dhcp_option_block)
          else ⟨fun k => [53, 1, 9, 255].getD k 0, 4⟩) 1).data 0
        (((fun i => if i = 1 then (⟨fun k => [53, 1, 7, 255].getD k 0, 4⟩ : dhcp_option_block)
          else ⟨fun k => [53, 1, 9, 255].getD k 0, 4⟩) 1).len : Int)).1 = some 0 ∧
      (find_dhcp_option_raw 53
        ((fun i => if i = 1 then (⟨fun k => [53, 1, 7, 255].getD k 0, 4⟩ : dhcp_option_block)
          else ⟨fun k => [53, 1, 9, 255].getD k 0, 4⟩) 2).data 0
        (((fun i => if i = 1 then (⟨fun k => [53, 1, 7, 255].getD k 0, 4⟩ : dhcp_option_block)
          else ⟨fun k => [53, 1, 9, 255].getD k 0, 4⟩) 2).len : Int)).1 = some 0) ∧
    (find_dhcp_option 53
      (fun i => if i = 1 then (⟨fun k => [53, 1, 7, 255].getD k 0, 4⟩ : dhcp_option_block)
        else ⟨fun k => [53, 1, 9, 255].getD k 0, 4⟩)
      (register_dhcp_options 2 (register_dhcp_options 1 [])) = some (2, 0) ∧
    (∀ r : List Nat,
      (∀ i ∈ r, (find_dhcp_option_raw 53
        ((fun i => if i = 1 then (⟨fun k => [53, 1, 7, 255].getD k 0, 4⟩ : dhcp_option_block)
          else ⟨fun k => [53, 1, 9, 255].getD k 0, 4⟩) i).data 0
        (((fun i => if i = 1 then (⟨fun k => [53, 1, 7, 255].getD k 0, 4⟩ : dhcp_option_block)
          else ⟨fun k => [53, 1, 9, 255].getD k 0, 4⟩) i).len : Int)).1 = none) →
      find_dhcp_option 53
        (fun i => if i = 1 then (⟨fun k => [53, 1, 7, 255].getD k 0, 4⟩ : dhcp_option_block)
          else ⟨fun k => [53, 1, 9, 255].getD k 0, 4⟩) r = none)) :=
  ⟨⟨by decide, by decide⟩,
    find_option_priority 53
      (fun i => if i = 1 then (⟨fun k => [53, 1, 7, 255].getD k 0, 4⟩ : dhcp_option_block)
        else ⟨fun k => [53, 1, 9, 255].getD k 0, 4⟩)
      [] 1 2 0 0 (by decide) (by decide)⟩

/-- Claim C8: a successful allocation of positive capacity yields a
block whose byte 0 is the `DHCP_END` tag and whose `len` is the
requested capacity, so an immediate scan for any tag is not-found;
allocation failure yields the distinguished `none`. -/
theorem alloc_dhcp_options_spec (len : Nat) (junk : Nat → Nat) (h : 0 < len) :
    ∃ b : dhcp_option_block,
      alloc_dhcp_options len junk true = some b ∧
      readByte b.data 0 = DHCP_END ∧
      b.len = len ∧
      (∀ tag : Nat, (find_dhcp_option_raw tag b.data 0 (b.len : Int)).1 = none) ∧
      alloc_dhcp_options len junk false = none := by
  refine ⟨⟨fun i => if len ≠ 0 ∧ i = 0 then DHCP_END else junk i, len⟩, rfl, ?_, rfl, ?_, rfl⟩
  · simp [readByte, DHCP_END, h.ne']
  · intro tag
    have hEnd : readByte (fun i => if len ≠ 0 ∧ i = 0 then DHCP_END else junk i) 0 =
        DHCP_END := by
      simp [readByte, DHCP_END, h.ne']
    rw [findRaw_step_end tag _ 0 (len : Int) (by omega) hEnd]

/-- Witness for C8: capacity 4, `malloc` returning garbage bytes 9. -/
theorem alloc_dhcp_options_spec_witness :
    0 < 4 ∧
    (∃ b : dhcp_option_block,
      alloc_dhcp_options 4 (fun _ => 9) true = some b ∧
      readByte b.data 0 = DHCP_END ∧
      b.len = 4 ∧
      (∀ tag : Nat, (find_dhcp_option_raw tag b.data 0 (b.len : Int)).1 = none) ∧
      alloc_dhcp_options 4 (fun _ => 9) false = none) :=
  ⟨by decide, alloc_dhcp_options_spec 4 (fun _ => 9) (by decide)⟩

/-- Claim C10: registering a not-currently-registered block and then
unregistering it restores the registry exactly, so every subsequent
search returns what it returned before. -/
theorem register_unregister_roundtrip (env : Nat → dhcp_option_block) (r : List Nat) (i : Nat)
    (h : i ∉ r) :
    unregister_dhcp_options i (register_dhcp_options i r) = r ∧
    (∀ tag : Nat,
      find_dhcp_option tag env (unregister_dhcp_options i (register_dhcp_options i r)) =
        find_dhcp_option tag env r) := by
  have e : unregister_dhcp_options i (register_dhcp_options i r) = r := by
    unfold unregister_dhcp_options register_dhcp_options
    exact List.erase_cons_head i r
  exact ⟨e, fun tag => by rw [e]⟩

/-- Witness for C10: block 3 registered on top of registry `[5]` and
unregistered again. -/
theorem register_unregister_roundtrip_witness :
    (3 : Nat) ∉ [5] ∧
    (unregister_dhcp_options 3 (register_dhcp_options 3 [5]) = [5] ∧
      (∀ tag : Nat,
        find_dhcp_option tag (fun _ => ⟨fun k => [255].getD k 0, 1⟩)
          (unregister_dhcp_options 3 (register_dhcp_options 3 [5])) =
        find_dhcp_option tag (fun _ => ⟨fun k => [255].getD k 0, 1⟩) [5])) :=
  ⟨by decide,
    register_unregister_roundtrip (fun _ => ⟨fun k => [255].getD k 0, 1⟩) [5] 3 (by decide)⟩

end DhcpOpts
